import Mathlib

/-!
Verification of the AI-Literature-Review-Generator pipeline (`main.py`).

The program is a sequential pipeline: extract PDF text, clean it, ask an LLM
for a structured `PaperSummary`, synthesize a review, and render an APA
bibliography.  The pure string-processing functions (`clean_text`,
`create_apa_citation`, `create_paper_list`) are embedded directly.  External
collaborators (the Unicode NFKD normalization table, the LLM, the PDF
library, the filesystem) are abstracted as function parameters, so every
theorem quantifies over their possible behaviours.
-/

namespace LitReview

/-- The set of code points Python treats as whitespace (`str.isspace`, and
the `\s` class of the `re` module on `str` patterns): ASCII whitespace and
the separator control characters, plus the Unicode space separators. -/
def pyWsCodes : List Nat :=
  [9, 10, 11, 12, 13, 28, 29, 30, 31, 32, 0x85, 0xa0, 0x1680,
   0x2000, 0x2001, 0x2002, 0x2003, 0x2004, 0x2005, 0x2006, 0x2007,
   0x2008, 0x2009, 0x200a, 0x2028, 0x2029, 0x202f, 0x205f, 0x3000]

/-- Python's whitespace test on a single character. -/
def pyWs (c : Char) : Bool := pyWsCodes.contains c.toNat

/-- One pass of `re.sub(r'\s+', ' ', text)` over the character list: each
maximal run of whitespace characters is replaced by a single space.  The
boolean argument records whether the previously consumed character was part
of a whitespace run. -/
def collapseWSAux (prevWs : Bool) : List Char → List Char
  | [] => []
  | c :: rest =>
    if pyWs c then
      if prevWs then collapseWSAux true rest
      else ' ' :: collapseWSAux true rest
    else c :: collapseWSAux false rest

/-- Embeds `re.sub(r'\s+', ' ', text)` on a character list. -/
def collapseWS (l : List Char) : List Char := collapseWSAux false l

/-- Python `str.strip()` on a character list: drop leading and trailing
whitespace. -/
def pyStrip (l : List Char) : List Char :=
  ((l.dropWhile pyWs).reverse.dropWhile pyWs).reverse

/-- Embeds `clean_text` from `main.py`.  The call
`unicodedata.normalize('NFKD', text)` is an external table lookup, so the
normalization is passed in as the parameter `nfkd`; `.encode('ASCII',
'ignore').decode('ASCII')` drops every code point above 127; the
comprehension drops code points below 32; `re.sub(r'\s+', ' ', text)`
collapses whitespace runs; `.strip()` trims the ends. -/
def clean_text (nfkd : String → String) (text : String) : String :=
  let ascii := (nfkd text).data.filter (fun c => c.toNat ≤ 127)
  let printable := ascii.filter (fun c => 32 ≤ c.toNat)
  String.mk (pyStrip (collapseWS printable))

example : clean_text id "  hello   world \n" = "hello world" := by decide
example : clean_text id "a\t\tb" = "ab" := by decide

/-- Python `str.split()` with no argument on a character list: split on runs of
whitespace, never producing empty pieces.  `acc` holds the (reversed)
current word. -/
def splitWSAux : List Char → List Char → List (List Char)
  | [], acc => if acc.isEmpty then [] else [acc.reverse]
  | c :: rest, acc =>
    if pyWs c then
      if acc.isEmpty then splitWSAux rest []
      else acc.reverse :: splitWSAux rest []
    else splitWSAux rest (c :: acc)

/-- Python `str.split()` with no argument. -/
def pySplit (s : String) : List String :=
  (splitWSAux s.data []).map String.mk

example : pySplit "Ludwig van Beethoven" = ["Ludwig", "van", "Beethoven"] := by decide
example : pySplit "  a  b " = ["a", "b"] := by decide
example : pySplit "" = [] := by decide

/-- Python `str.lower()` (ASCII case mapping, which is all the citation
code compares against). -/
def pyLower (s : String) : String := String.mk (s.data.map Char.toLower)

/-- Python `str.capitalize()`: first character uppercased, the rest
lowercased. -/
def pyCapitalize (s : String) : String :=
  match s.data with
  | [] => ""
  | c :: rest => String.mk (c.toUpper :: rest.map Char.toLower)

/-- Python `s[0]` on a string: fails (IndexError) on the empty string. -/
def pyIndex0 (s : String) : Except String Char :=
  match s.data with
  | [] => .error "IndexError: string index out of range"
  | c :: _ => .ok c

/-- Evaluation of a Python generator/loop that may raise: the first raised
exception aborts and propagates, otherwise the list of results is
produced. -/
def exceptMap (f : α → Except ε β) : List α → Except ε (List β)
  | [] => .ok []
  | x :: xs =>
    match f x with
    | .error e => .error e
    | .ok y =>
      match exceptMap f xs with
      | .error e => .error e
      | .ok ys => .ok (y :: ys)

/-- The lowercase particle set of `create_apa_citation`. -/
def particleSet : List String := ["van", "von", "de", "du"]

/-- The stop-word set used by the title-casing step of
`create_apa_citation`. -/
def stopWords : List String :=
  ["a", "an", "the", "and", "but", "or", "for", "nor", "on", "at", "to",
   "from", "by", "in", "of"]

/-- The per-author formatting of `create_apa_citation` (lines 139-146 of
`main.py`): split the name on whitespace; with more than one part, the
surname is the last part, or the last two parts joined by a space when the
second-to-last part lowercases to a particle; the initials are the first
characters of the leading non-particle parts, uppercased with a period,
joined by `". "`.  A single-part (or empty) name is used verbatim.
`name[0]` is the one fallible operation. -/
def formatAuthor (author : String) : Except String String :=
  let parts := pySplit author
  match parts.reverse with
  | p1 :: p2 :: _ =>
    let lastName := if particleSet.contains (pyLower p2) then p2 ++ " " ++ p1 else p1
    let leading := parts.dropLast.filter (fun n => !particleSet.contains (pyLower n))
    match exceptMap (fun n => (pyIndex0 n).map (fun c => String.mk [c.toUpper] ++ ".")) leading with
    | .error e => .error e
    | .ok inits => .ok (lastName ++ ", " ++ String.intercalate ". " inits)
  | _ => .ok author

example : formatAuthor "Ludwig van Beethoven" = .ok "van Beethoven, L." := rfl
example : formatAuthor "Jane Smith" = .ok "Smith, J." := rfl
example : formatAuthor "Plato" = .ok "Plato" := rfl

/-- The author-joining step of `create_apa_citation` (lines 148-156):
one author stands alone, two are joined by `" & "`, three or more are
comma-separated with the last joined by `", & "`; an empty list falls to
the defensive `"Unknown"` branch. -/
def joinAuthors : List String → String
  | [] => "Unknown"
  | [a] => a
  | [a, b] => a ++ " & " ++ b
  | a :: b :: c :: rest =>
    String.intercalate ", " ((a :: b :: c :: rest).dropLast)
      ++ ", & " ++ (c :: rest).getLast (List.cons_ne_nil c rest)

/-- The title-casing step of `create_apa_citation` (lines 158-160): split
the title on whitespace; capitalize the first word and every word whose
lowercasing is not a stop word; lowercase the remaining (stop) words;
re-join with single spaces. -/
def titleCase (title : String) : String :=
  let words := pySplit title
  String.intercalate " "
    (words.enum.map (fun p =>
      if p.1 = 0 ∨ !stopWords.contains (pyLower p.2) then pyCapitalize p.2
      else pyLower p.2))

example : titleCase "the rise of the machines" = "The Rise of the Machines" := by decide

/-- Lines 162-164 of `main.py`: remove one trailing period from the title,
if present (`title.endswith('.')` followed by `title[:-1]`). -/
def stripTrailingPeriod (t : String) : String :=
  if t.data.getLast? = some '.' then String.mk t.data.dropLast else t

/-- Whether a string ends with two consecutive periods. -/
def endsTwoPeriods (s : String) : Bool :=
  s.data.getLast? == some '.' && s.data.dropLast.getLast? == some '.'

example : stripTrailingPeriod "Machines." = "Machines" := by decide
example : endsTwoPeriods "a.." = true := by decide
example : endsTwoPeriods "a." = false := by decide

/-- The structured summary parsed from the LLM response (`PaperSummary`
in `main.py`). -/
structure PaperSummary where
  title : String
  authors : List String
  year : Int
  research_question : String
  theoretical_framework : String
  methodology : String
  main_arguments : List String
  findings : String
  significance : String
  limitations : String
  future_research : String
deriving Repr, DecidableEq

/-- Embeds `create_apa_citation` from `main.py`.  With no authors the raw title is
used; otherwise each author is formatted (any exception propagating), the
author strings are joined, and the title is title-cased with one trailing
period stripped. -/
def create_apa_citation (s : PaperSummary) : Except String String :=
  if s.authors.isEmpty then
    .ok ("Unknown. (" ++ toString s.year ++ "). " ++ s.title ++ ".")
  else
    match exceptMap formatAuthor s.authors with
    | .error e => .error e
    | .ok fa =>
      .ok (joinAuthors fa ++ " (" ++ toString s.year ++ "). "
        ++ stripTrailingPeriod (titleCase s.title) ++ ".")

/-- A sample summary used by concrete test theorems; `mk` with the listed
title, authors and year, all prose fields empty. -/
def sampleSummary (title : String) (authors : List String) (year : Int) : PaperSummary :=
  ⟨title, authors, year, "", "", "", [], "", "", "", ""⟩

example :
    create_apa_citation (sampleSummary "deep learning" ["Jane Smith", "John Doe"] 2020)
      = .ok "Smith, J. & Doe, J. (2020). Deep Learning." := rfl

/-- One iteration of the loop in `create_paper_list` (lines 171-177):
the citation line, or the logged placeholder when `create_apa_citation`
raised for this entry. -/
def citationLine (s : PaperSummary) : String :=
  match create_apa_citation s with
  | .ok c => "- " ++ c ++ "\n"
  | .error _ => "- Error in citation: " ++ s.title ++ "\n"

/-- Embeds `create_paper_list` from `main.py`: the markdown heading followed by
one bulleted line per summary, in input order. -/
def create_paper_list (summaries : List PaperSummary) : String :=
  "## List of Reviewed Papers\n\n" ++ String.join (summaries.map citationLine)

/-- Split a character list into its newline-separated lines. -/
def splitLinesAux : List Char → List Char → List (List Char)
  | [], acc => [acc.reverse]
  | c :: rest, acc =>
    if c = '\n' then acc.reverse :: splitLinesAux rest []
    else splitLinesAux rest (c :: acc)

/-- Whether a line is a markdown bullet, beginning with `"- "`. -/
def isBulletLine : List Char → Bool
  | '-' :: ' ' :: _ => true
  | _ => false

/-- The number of bibliography entries in a rendered document: lines
beginning with the bullet `"- "`. -/
def bulletLineCount (doc : String) : Nat :=
  ((splitLinesAux doc.data []).filter isBulletLine).length

/-- Python `str.endswith(suffix)`. -/
def strEndsWith (s suffix : String) : Bool :=
  List.isPrefixOf suffix.data.reverse s.data.reverse

/-- The retry loop of the `tenacity` decorator
`@retry(stop=stop_after_attempt(n))` applied in `main.py`: run attempt `i`;
on success stop; on failure make up to `fuel` further attempts, the last
error propagating.  `attempt` gives each attempt's outcome (the LLM call
plus, for analysis, the schema parse) and the returned `Nat` counts the
attempts actually made. -/
def retryExec (attempt : Nat → Except String α) (i : Nat) : Nat → Except String α × Nat
  | 0 => (attempt i, 1)
  | fuel + 1 =>
    match attempt i with
    | .ok a => (.ok a, 1)
    | .error _ =>
      let r := retryExec attempt (i + 1) fuel
      (r.1, r.2 + 1)

/-- Embeds `analyze_pdf` under its `@retry(stop=stop_after_attempt(3), ...)`
decorator: at most three attempts of the LLM call + `PaperSummary` parse,
whose per-attempt outcomes are the abstracted `attempt`. -/
def analyze_pdf (attempt : Nat → Except String PaperSummary) :
    Except String PaperSummary × Nat :=
  retryExec attempt 0 2

/-- Embeds `synthesize_reviews` under its `@retry(stop=stop_after_attempt(3), ...)`
decorator: at most three attempts of the free-text LLM call. -/
def synthesize_reviews (attempt : Nat → Except String String) :
    Except String String × Nat :=
  retryExec attempt 0 2

/-- The result-collection loop of `main` (lines 201-206): each completed
task's outcome is inspected; successes are appended in completion order and
failures are logged and dropped. -/
def collectSummaries (results : List (Except String PaperSummary)) :
    List PaperSummary :=
  results.filterMap Except.toOption

/-- Terminal states of one run of `main`. -/
inductive RunResult
  | completed (doc : String)
  | failedNoInput
  | failedNoOutput
  | failedUnexpected
deriving Repr, DecidableEq

/-- Whether a run wrote an output file: only the `completed` state performs
the write (lines 217-221 of `main.py`). -/
def wroteOutput : RunResult → Bool
  | .completed _ => true
  | _ => false

/-- Embeds `main` from `main.py`, with its external collaborators abstracted:
`files` is the directory listing, `outcome` the per-file result of
`process_pdf` (extract + analyze, already wrapped in the retry loop), and
`synth` the result of `synthesize_reviews` on the collected summaries.
Files not ending in `.pdf` are skipped; with no PDF files the run stops
before any processing; with no successful summary it stops before
synthesis; an exception from synthesis reaches the outer generic handler;
otherwise the written document is the review, two newlines, and the paper
list.  Completion order of the thread pool is abstracted as the given list
order. -/
def mainRun (files : List String)
    (outcome : String → Except String PaperSummary)
    (synth : List PaperSummary → Except String String) : RunResult :=
  let pdf_files := files.filter (fun f => strEndsWith f ".pdf")
  if pdf_files.isEmpty then .failedNoInput
  else
    let summaries := collectSummaries (pdf_files.map outcome)
    if summaries.isEmpty then .failedNoOutput
    else
      match synth summaries with
      | .error _ => .failedUnexpected
      | .ok review => .completed (review ++ "\n\n" ++ create_paper_list summaries)

/-- A per-file outcome for concrete end-to-end scenarios: one corrupt file
fails extraction, every other file yields a summary titled after it. -/
def exOutcome : String → Except String PaperSummary := fun f =>
  if f = "corrupt.pdf" then .error "ExtractionError"
  else .ok (sampleSummary f ["Jane Smith"] 2020)

/-- A synthesis outcome for concrete end-to-end scenarios. -/
def exSynth : List PaperSummary → Except String String :=
  fun _ => .ok "Synthesized review."

/-- A per-file outcome where every file fails analysis. -/
def exFailOutcome : String → Except String PaperSummary :=
  fun _ => .error "AnalysisError"

/-! ### Helper lemmas about the whitespace-collapsing pass -/

/-- Adjacent characters are never both whitespace. -/
def noWsPair (a b : Char) : Prop := ¬(pyWs a = true ∧ pyWs b = true)

theorem mem_collapseWSAux {c : Char} :
    ∀ {l : List Char} {b : Bool}, c ∈ collapseWSAux b l →
      c = ' ' ∨ (c ∈ l ∧ pyWs c = false) := by
  intro l
  induction l with
  | nil => intro b h; simp [collapseWSAux] at h
  | cons d rest ih =>
    intro b h
    cases hw : pyWs d with
    | true =>
      cases b with
      | true =>
        simp only [collapseWSAux, hw, if_true] at h
        rcases ih h with h1 | ⟨h2, h3⟩
        · exact Or.inl h1
        · exact Or.inr ⟨List.mem_cons_of_mem _ h2, h3⟩
      | false =>
        simp only [collapseWSAux, hw, if_true, Bool.false_eq_true, if_false,
          List.mem_cons] at h
        rcases h with h1 | h1
        · exact Or.inl h1
        · rcases ih h1 with h2 | ⟨h2, h3⟩
          · exact Or.inl h2
          · exact Or.inr ⟨List.mem_cons_of_mem _ h2, h3⟩
    | false =>
      simp only [collapseWSAux, hw, Bool.false_eq_true, if_false, List.mem_cons] at h
      rcases h with h1 | h1
      · exact Or.inr ⟨by rw [h1]; exact List.mem_cons_self _ _, by rw [h1]; exact hw⟩
      · rcases ih h1 with h2 | ⟨h2, h3⟩
        · exact Or.inl h2
        · exact Or.inr ⟨List.mem_cons_of_mem _ h2, h3⟩

theorem head_collapseWSAux_true :
    ∀ (l : List Char) (c : Char), (collapseWSAux true l).head? = some c →
      pyWs c = false := by
  intro l
  induction l with
  | nil => intro c h; simp [collapseWSAux] at h
  | cons d rest ih =>
    intro c h
    cases hw : pyWs d with
    | true =>
      simp only [collapseWSAux, hw, if_true] at h
      exact ih c h
    | false =>
      simp only [collapseWSAux, hw, Bool.false_eq_true, if_false, List.head?_cons,
        Option.some.injEq] at h
      rw [← h]; exact hw

theorem chain_collapseWSAux :
    ∀ (l : List Char) (b : Bool), List.Chain' noWsPair (collapseWSAux b l) := by
  intro l
  induction l with
  | nil => intro b; simp [collapseWSAux]
  | cons d rest ih =>
    intro b
    cases hw : pyWs d with
    | true =>
      cases b with
      | true => simpa only [collapseWSAux, hw, if_true] using ih true
      | false =>
        simp only [collapseWSAux, hw, if_true, Bool.false_eq_true, if_false]
        rw [List.chain'_cons']
        refine ⟨?_, ih true⟩
        intro y hy
        have := head_collapseWSAux_true rest y hy
        intro hc
        rw [this] at hc
        exact Bool.false_ne_true hc.2
    | false =>
      simp only [collapseWSAux, hw, Bool.false_eq_true, if_false]
      rw [List.chain'_cons']
      refine ⟨?_, ih false⟩
      intro y _ hc
      rw [hw] at hc
      exact Bool.false_ne_true hc.1

theorem collapseWSAux_true_eq_false (l : List Char)
    (h : ∀ c, l.head? = some c → pyWs c = false) :
    collapseWSAux true l = collapseWSAux false l := by
  cases l with
  | nil => rfl
  | cons d rest =>
    have hw := h d rfl
    simp [collapseWSAux, hw]

theorem collapseWSAux_id (l : List Char)
    (hsp : ∀ c ∈ l, pyWs c = true → c = ' ')
    (hch : List.Chain' noWsPair l) :
    collapseWSAux false l = l := by
  induction l with
  | nil => rfl
  | cons d rest ih =>
    have hcc := List.chain'_cons'.mp hch
    cases hw : pyWs d with
    | true =>
      have hd : d = ' ' := hsp d (List.mem_cons_self _ _) hw
      have hhead : ∀ c, rest.head? = some c → pyWs c = false := by
        intro c hc
        have := hcc.1 c hc
        unfold noWsPair at this
        cases hcw : pyWs c with
        | true => exact absurd ⟨hw, hcw⟩ this
        | false => rfl
      simp only [collapseWSAux, hw, if_true, Bool.false_eq_true, if_false]
      rw [collapseWSAux_true_eq_false rest hhead,
        ih (fun c hc => hsp c (List.mem_cons_of_mem _ hc)) hcc.2, hd]
    | false =>
      simp only [collapseWSAux, hw, Bool.false_eq_true, if_false]
      rw [ih (fun c hc => hsp c (List.mem_cons_of_mem _ hc)) hcc.2]

/-! ### Helper lemmas about `dropWhile` and `pyStrip` -/

theorem dropWhile_head_not (p : Char → Bool) :
    ∀ (l : List Char) (c : Char), (l.dropWhile p).head? = some c → p c = false := by
  intro l
  induction l with
  | nil => intro c h; simp [List.dropWhile] at h
  | cons d rest ih =>
    intro c h
    cases hw : p d with
    | true =>
      rw [List.dropWhile_cons_of_pos hw] at h
      exact ih c h
    | false =>
      rw [List.dropWhile_cons_of_neg (by simp [hw])] at h
      simp only [List.head?_cons, Option.some.injEq] at h
      rw [← h]; exact hw

theorem dropWhile_eq_self_of_head (p : Char → Bool) (l : List Char)
    (h : ∀ c, l.head? = some c → p c = false) :
    l.dropWhile p = l := by
  cases l with
  | nil => rfl
  | cons d rest => exact List.dropWhile_cons_of_neg (by simp [h d rfl])

theorem dropWhile_suffix (p : Char → Bool) (l : List Char) :
    l.dropWhile p <:+ l :=
  ⟨l.takeWhile p, List.takeWhile_append_dropWhile p l⟩

theorem mem_pyStrip {c : Char} {l : List Char} (h : c ∈ pyStrip l) : c ∈ l := by
  unfold pyStrip at h
  rw [List.mem_reverse] at h
  have h2 := List.Sublist.mem h (List.dropWhile_sublist pyWs)
  rw [List.mem_reverse] at h2
  exact List.Sublist.mem h2 (List.dropWhile_sublist pyWs)

theorem chain_pyStrip (l : List Char) (h : List.Chain' noWsPair l) :
    List.Chain' noWsPair (pyStrip l) := by
  have hsymm : ∀ (m : List Char), List.Chain' noWsPair m →
      List.Chain' noWsPair m.reverse := by
    intro m hm
    rw [List.chain'_reverse]
    exact hm.imp (fun a b hab hc => hab ⟨hc.2, hc.1⟩)
  have h1 : List.Chain' noWsPair (l.dropWhile pyWs) :=
    h.suffix (dropWhile_suffix pyWs l)
  have h2 := hsymm _ h1
  have h3 : List.Chain' noWsPair ((l.dropWhile pyWs).reverse.dropWhile pyWs) :=
    h2.suffix (dropWhile_suffix pyWs _)
  exact hsymm _ h3

theorem head_pyStrip (l : List Char) (c : Char)
    (h : (pyStrip l).head? = some c) : pyWs c = false := by
  unfold pyStrip at h
  rw [List.head?_reverse] at h
  rcases hcase : (l.dropWhile pyWs).reverse.dropWhile pyWs with _ | ⟨d, rest⟩
  · rw [hcase] at h; simp at h
  · rw [hcase] at h
    have hsfx : (l.dropWhile pyWs).reverse.takeWhile pyWs ++ (d :: rest)
        = (l.dropWhile pyWs).reverse := by
      rw [← hcase]; exact List.takeWhile_append_dropWhile pyWs _
    have hlast : (d :: rest).getLast? = ((l.dropWhile pyWs).reverse).getLast? := by
      rw [← hsfx]
      exact (List.getLast?_append_of_ne_nil _ (List.cons_ne_nil d rest)).symm
    rw [hlast, List.getLast?_reverse] at h
    exact dropWhile_head_not pyWs l c h

theorem last_pyStrip (l : List Char) (c : Char)
    (h : (pyStrip l).getLast? = some c) : pyWs c = false := by
  unfold pyStrip at h
  rw [List.getLast?_reverse] at h
  exact dropWhile_head_not pyWs _ c h

/-! ### Character-level properties of `clean_text` -/

theorem clean_text_chars (nfkd : String → String) (t : String) :
    ∀ c ∈ (clean_text nfkd t).data, 32 ≤ c.toNat ∧ c.toNat ≤ 127 := by
  intro c hc
  simp only [clean_text] at hc
  have h1 := mem_pyStrip hc
  rcases mem_collapseWSAux h1 with h2 | ⟨h2, _⟩
  · rw [h2]; exact ⟨le_refl _, by decide⟩
  · simp only [List.mem_filter, decide_eq_true_eq] at h2
    exact ⟨h2.2, h2.1.2⟩

theorem clean_text_ws_space (nfkd : String → String) (t : String) :
    ∀ c ∈ (clean_text nfkd t).data, pyWs c = true → c = ' ' := by
  intro c hc hw
  simp only [clean_text] at hc
  have h1 := mem_pyStrip hc
  rcases mem_collapseWSAux h1 with h2 | ⟨_, h3⟩
  · exact h2
  · rw [hw] at h3; exact absurd h3 (by simp)

theorem clean_text_chain (nfkd : String → String) (t : String) :
    List.Chain' noWsPair (clean_text nfkd t).data := by
  simp only [clean_text]
  exact chain_pyStrip _ (chain_collapseWSAux _ false)

theorem clean_text_head (nfkd : String → String) (t : String) :
    ∀ c, (clean_text nfkd t).data.head? = some c → pyWs c = false := by
  intro c hc
  simp only [clean_text] at hc
  exact head_pyStrip _ c hc

theorem clean_text_last (nfkd : String → String) (t : String) :
    ∀ c, (clean_text nfkd t).data.getLast? = some c → pyWs c = false := by
  intro c hc
  simp only [clean_text] at hc
  exact last_pyStrip _ c hc

/-- Claim C3: for every Unicode normalization and every input string, the
output of `clean_text` contains no character with code point below 32,
consists only of 7-bit ASCII characters (code point at most 127), has no
two consecutive whitespace characters, and has no leading or trailing
whitespace. -/
theorem clean_text_output_clean (nfkd : String → String) (text : String) :
    (∀ c ∈ (clean_text nfkd text).data, 32 ≤ c.toNat ∧ c.toNat ≤ 127) ∧
    List.Chain' noWsPair (clean_text nfkd text).data ∧
    (∀ c, (clean_text nfkd text).data.head? = some c → pyWs c = false) ∧
    (∀ c, (clean_text nfkd text).data.getLast? = some c → pyWs c = false) :=
  ⟨clean_text_chars nfkd text, clean_text_chain nfkd text,
   clean_text_head nfkd text, clean_text_last nfkd text⟩

/-- Evaluation witness: `clean_text_output_clean` applied at a concrete
input, discharging the inner hypotheses concretely. -/
theorem clean_text_output_clean_witness : pyWs 'a' = false ∧ 32 ≤ ('a').toNat :=
  ⟨(clean_text_output_clean id "  a \t\u0007 b ").2.2.1 'a' (by decide),
   ((clean_text_output_clean id "  a \t\u0007 b ").1 'a' (by decide)).1⟩

/-- Claim C10: `clean_text` is idempotent.  The external NFKD normalization
is assumed to be the identity on printable-ASCII strings (which holds of
Unicode NFKD, every such character being its own canonical decomposition);
every output of `clean_text` is such a string. -/
theorem clean_text_idempotent (nfkd : String → String)
    (hnfkd : ∀ s : String, (∀ c ∈ s.data, 32 ≤ c.toNat ∧ c.toNat ≤ 127) → nfkd s = s)
    (t : String) :
    clean_text nfkd (clean_text nfkd t) = clean_text nfkd t := by
  set u := clean_text nfkd t with hu
  have hnf : nfkd u = u := hnfkd u (clean_text_chars nfkd t)
  have hf1 : u.data.filter (fun c => c.toNat ≤ 127) = u.data :=
    List.filter_eq_self.mpr (fun c hc => by
      simpa using (clean_text_chars nfkd t c hc).2)
  have hf2 : u.data.filter (fun c => 32 ≤ c.toNat) = u.data :=
    List.filter_eq_self.mpr (fun c hc => by
      simpa using (clean_text_chars nfkd t c hc).1)
  have hcoll : collapseWS u.data = u.data :=
    collapseWSAux_id u.data (clean_text_ws_space nfkd t) (clean_text_chain nfkd t)
  have hstrip : pyStrip u.data = u.data := by
    unfold pyStrip
    rw [dropWhile_eq_self_of_head pyWs u.data (clean_text_head nfkd t)]
    rw [dropWhile_eq_self_of_head pyWs u.data.reverse (by
      intro c hc
      rw [List.head?_reverse] at hc
      exact clean_text_last nfkd t c hc)]
    exact List.reverse_reverse _
  show clean_text nfkd u = u
  simp only [clean_text]
  rw [hnf, hf1, hf2]
  show String.mk (pyStrip (collapseWS u.data)) = u
  rw [hcoll, hstrip]

/-- Evaluation witness: `clean_text_idempotent` applied at the identity
normalization and a concrete string. -/
theorem clean_text_idempotent_witness :
    clean_text id (clean_text id "  a \t b  c ") = clean_text id "  a \t b  c " :=
  clean_text_idempotent id (fun _ _ => rfl) "  a \t b  c "

/-! ### Totality of the citation formatter -/

theorem splitWSAux_ne_nil :
    ∀ (l acc : List Char), ∀ p ∈ splitWSAux l acc, p ≠ [] := by
  intro l
  induction l with
  | nil =>
    intro acc p hp
    cases ha : acc.isEmpty with
    | true => simp [splitWSAux, ha] at hp
    | false =>
      simp only [splitWSAux, ha, Bool.false_eq_true, if_false, List.mem_singleton] at hp
      rw [hp]
      simp [List.isEmpty_eq_false.mp ha]
  | cons c rest ih =>
    intro acc p hp
    cases hw : pyWs c with
    | true =>
      cases ha : acc.isEmpty with
      | true =>
        simp only [splitWSAux, hw, ha, if_true] at hp
        exact ih [] p hp
      | false =>
        simp only [splitWSAux, hw, ha, if_true, Bool.false_eq_true, if_false,
          List.mem_cons] at hp
        rcases hp with hp | hp
        · rw [hp]; simp [List.isEmpty_eq_false.mp ha]
        · exact ih [] p hp
    | false =>
      simp only [splitWSAux, hw, Bool.false_eq_true, if_false] at hp
      exact ih (c :: acc) p hp

theorem pySplit_ne_empty (s : String) : ∀ p ∈ pySplit s, p ≠ "" := by
  intro p hp
  simp only [pySplit, List.mem_map] at hp
  obtain ⟨q, hq, hmk⟩ := hp
  intro hcon
  apply splitWSAux_ne_nil s.data [] q hq
  have hd := congrArg String.data (hmk.trans hcon)
  simpa using hd

theorem pyIndex0_ok : ∀ (s : String), s ≠ "" → ∃ c, pyIndex0 s = .ok c := by
  intro s h
  cases s with
  | mk d =>
    cases d with
    | nil => exact absurd rfl h
    | cons c cs => exact ⟨c, rfl⟩

theorem exceptMap_ok {α β : Type} (f : α → Except String β) :
    ∀ (l : List α), (∀ x ∈ l, ∃ y, f x = .ok y) → ∃ ys, exceptMap f l = .ok ys := by
  intro l
  induction l with
  | nil => intro _; exact ⟨[], rfl⟩
  | cons x xs ih =>
    intro h
    obtain ⟨y, hy⟩ := h x (List.mem_cons_self _ _)
    obtain ⟨ys, hys⟩ := ih (fun z hz => h z (List.mem_cons_of_mem _ hz))
    exact ⟨y :: ys, by simp [exceptMap, hy, hys]⟩

theorem formatAuthor_ok (a : String) : ∃ r, formatAuthor a = .ok r := by
  simp only [formatAuthor]
  cases hrev : (pySplit a).reverse with
  | nil => exact ⟨a, rfl⟩
  | cons p1 t1 =>
    cases t1 with
    | nil => exact ⟨a, rfl⟩
    | cons p2 t2 =>
      obtain ⟨inits, hinits⟩ :=
        exceptMap_ok (fun n => (pyIndex0 n).map (fun c => String.mk [c.toUpper] ++ "."))
          ((pySplit a).dropLast.filter (fun n => !particleSet.contains (pyLower n)))
          (fun n hn => by
            obtain ⟨c, hc⟩ := pyIndex0_ok n
              (pySplit_ne_empty a n
                (List.Sublist.mem (List.mem_of_mem_filter hn)
                  (List.dropLast_sublist _)))
            exact ⟨String.mk [c.toUpper] ++ ".", by simp only []; rw [hc]; rfl⟩)
      exact ⟨_, by rw [hinits]⟩

theorem exceptMap_formatAuthor_ok (authors : List String) :
    ∃ fa, exceptMap formatAuthor authors = .ok fa :=
  exceptMap_ok formatAuthor authors (fun x _ => formatAuthor_ok x)

/-- Claim C9: for every well-typed `PaperSummary`, `create_apa_citation`
returns a citation string and never raises, so the error placeholder branch
of `create_paper_list` is unreachable: the rendered line is always the
bulleted citation. -/
theorem create_apa_citation_total (s : PaperSummary) :
    ∃ c, create_apa_citation s = .ok c ∧ citationLine s = "- " ++ c ++ "\n" := by
  cases he : s.authors.isEmpty with
  | true =>
    refine ⟨"Unknown. (" ++ toString s.year ++ "). " ++ s.title ++ ".", ?_, ?_⟩
    · simp [create_apa_citation, he]
    · simp [citationLine, create_apa_citation, he]
  | false =>
    obtain ⟨fa, hfa⟩ := exceptMap_formatAuthor_ok s.authors
    refine ⟨joinAuthors fa ++ " (" ++ toString s.year ++ "). "
        ++ stripTrailingPeriod (titleCase s.title) ++ ".", ?_, ?_⟩
    · simp [create_apa_citation, he, hfa]
    · simp [citationLine, create_apa_citation, he, hfa]

/-- Claim C4: a single author `"Ludwig van Beethoven"` is formatted with
surname `"van Beethoven"` (particle plus last token) and initials `"L."`
(the particle excluded), so the citation starts with the author string
`"van Beethoven, L."`. -/
theorem citation_van_beethoven (s : PaperSummary)
    (h : s.authors = ["Ludwig van Beethoven"]) :
    create_apa_citation s
      = .ok ("van Beethoven, L." ++ " (" ++ toString s.year ++ "). "
          ++ stripTrailingPeriod (titleCase s.title) ++ ".") := by
  have he : s.authors.isEmpty = false := by rw [h]; rfl
  have hfa : exceptMap formatAuthor s.authors = .ok ["van Beethoven, L."] := by
    rw [h]; rfl
  simp only [create_apa_citation, he, Bool.false_eq_true, if_false, hfa]
  rfl

/-- Evaluation witness: `citation_van_beethoven` applied at a concrete
summary. -/
theorem citation_van_beethoven_witness :
    create_apa_citation (sampleSummary "symphony" ["Ludwig van Beethoven"] 1824)
      = .ok ("van Beethoven, L." ++ " ("
          ++ toString (sampleSummary "symphony" ["Ludwig van Beethoven"] 1824).year ++ "). "
          ++ stripTrailingPeriod
              (titleCase (sampleSummary "symphony" ["Ludwig van Beethoven"] 1824).title)
          ++ ".") :=
  citation_van_beethoven (sampleSummary "symphony" ["Ludwig van Beethoven"] 1824) rfl

/-- Claim C5: the author joiner of `create_apa_citation`: one author stands
alone; two are joined by `" & "`; three or more are comma-separated with
the last joined by `", & "`; and the two documented examples hold
end-to-end. -/
theorem join_authors_semantics :
    (∀ a : String, joinAuthors [a] = a) ∧
    (∀ a b : String, joinAuthors [a, b] = a ++ " & " ++ b) ∧
    (∀ (a b c : String) (rest : List String),
      joinAuthors (a :: b :: c :: rest)
        = String.intercalate ", " ((a :: b :: c :: rest).dropLast)
          ++ ", & " ++ (c :: rest).getLast (List.cons_ne_nil c rest)) ∧
    create_apa_citation (sampleSummary "results" ["Jane Smith", "John Doe"] 2020)
      = .ok "Smith, J. & Doe, J. (2020). Results." ∧
    create_apa_citation (sampleSummary "results" ["A B", "C D", "E F"] 2021)
      = .ok "B, A., D, C., & F, E. (2021). Results." :=
  ⟨fun _ => rfl, fun _ _ => rfl, fun _ _ _ _ => rfl, rfl, rfl⟩

/-- Counterexample to claim C1 as stated: the title-casing step of
`create_apa_citation` capitalizes every word not in the stop-word set, so
`"the rise of the machines"` becomes `"The Rise of the Machines"`, not
`"The rise of the machines"`: `"rise"` and `"machines"` are altered to
uppercase. -/
theorem title_case_counterexample :
    titleCase "the rise of the machines" = "The Rise of the Machines" ∧
    titleCase "the rise of the machines" ≠ "The rise of the machines" ∧
    create_apa_citation (sampleSummary "the rise of the machines" ["Jane Smith"] 2020)
      = .ok "Smith, J. (2020). The Rise of the Machines." :=
  ⟨rfl, by decide, rfl⟩

/-- Claim C1 (amended): the title-casing step capitalizes the first word
and every word not in the stop-word set, and lowercases the internal stop
words `"the"` and `"of"`; on `"the rise of the machines"` it produces
`"The Rise of the Machines"`. -/
theorem title_case_rise_of_machines :
    titleCase "the rise of the machines"
      = String.intercalate " "
          [pyCapitalize "the", pyCapitalize "rise", pyLower "of",
           pyLower "the", pyCapitalize "machines"] ∧
    titleCase "the rise of the machines" = "The Rise of the Machines" :=
  ⟨rfl, rfl⟩

/-- Counterexample to claim C2 as stated: with an empty authors list
`create_apa_citation` returns early with the raw title — no
trailing-period stripping — so a title ending in a period yields a
citation ending in two consecutive periods. -/
theorem citation_trailing_period_counterexample :
    create_apa_citation (sampleSummary "Machines." [] 1999)
      = .ok "Unknown. (1999). Machines.." ∧
    endsTwoPeriods "Unknown. (1999). Machines.." = true :=
  ⟨rfl, by decide⟩

theorem endsTwoPeriods_append_period (pre st : String)
    (hpre : pre.data.getLast? = some ' ') (hst : st.data.getLast? ≠ some '.') :
    endsTwoPeriods (pre ++ st ++ ".") = false := by
  unfold endsTwoPeriods
  have hdata : (pre ++ st ++ ".").data = (pre.data ++ st.data) ++ ['.'] := rfl
  rw [hdata, List.getLast?_concat, List.dropLast_concat]
  simp only [beq_self_eq_true, Bool.true_and]
  cases hstd : st.data with
  | nil =>
    simp only [hstd, List.append_nil]
    rw [hpre]
    rfl
  | cons d ds =>
    rw [List.getLast?_append_of_ne_nil _ (List.cons_ne_nil d ds)]
    rw [beq_eq_false_iff_ne]
    rw [← hstd]
    exact hst

theorem getLast_paren_space (x : String) : (x ++ "). ").data.getLast? = some ' ' := by
  have h : (x ++ "). ").data = x.data ++ [')', '.', ' '] := rfl
  rw [h, List.getLast?_append_of_ne_nil _ (by simp)]
  rfl

/-- Claim C2 (amended): for every `PaperSummary` with a nonempty authors
list, `create_apa_citation` strips one trailing period from the title-cased
title, if present, before appending its own terminal period; hence whenever
the title-cased title does not already end in two consecutive periods the
returned citation does not end in two consecutive periods.  (With an empty
authors list the raw title is used unstripped, and a title ending in `"."`
or `".."` still produces a doubled period.) -/
theorem citation_strips_trailing_period (s : PaperSummary)
    (h : s.authors.isEmpty = false)
    (h2 : endsTwoPeriods (titleCase s.title) = false) :
    ∃ astr, create_apa_citation s
        = .ok (astr ++ " (" ++ toString s.year ++ "). "
            ++ stripTrailingPeriod (titleCase s.title) ++ ".")
      ∧ endsTwoPeriods (astr ++ " (" ++ toString s.year ++ "). "
            ++ stripTrailingPeriod (titleCase s.title) ++ ".") = false := by
  obtain ⟨fa, hfa⟩ := exceptMap_formatAuthor_ok s.authors
  refine ⟨joinAuthors fa, ?_, ?_⟩
  · simp [create_apa_citation, h, hfa]
  · have hkey : (stripTrailingPeriod (titleCase s.title)).data.getLast? ≠ some '.' := by
      unfold stripTrailingPeriod
      by_cases hl : (titleCase s.title).data.getLast? = some '.'
      · rw [if_pos hl]
        show (titleCase s.title).data.dropLast.getLast? ≠ some '.'
        intro hc
        unfold endsTwoPeriods at h2
        rw [hl, hc] at h2
        simp at h2
      · rw [if_neg hl]
        exact hl
    exact endsTwoPeriods_append_period
      (joinAuthors fa ++ " (" ++ toString s.year ++ "). ")
      (stripTrailingPeriod (titleCase s.title))
      (getLast_paren_space _) hkey

/-- Evaluation witness: `citation_strips_trailing_period` applied at a
concrete summary whose title carries one trailing period. -/
theorem citation_strips_trailing_period_witness :
    ∃ astr, create_apa_citation (sampleSummary "deep learning." ["Jane Smith"] 2020)
        = .ok (astr ++ " ("
            ++ toString (sampleSummary "deep learning." ["Jane Smith"] 2020).year ++ "). "
            ++ stripTrailingPeriod
                (titleCase (sampleSummary "deep learning." ["Jane Smith"] 2020).title) ++ ".")
      ∧ endsTwoPeriods (astr ++ " ("
            ++ toString (sampleSummary "deep learning." ["Jane Smith"] 2020).year ++ "). "
            ++ stripTrailingPeriod
                (titleCase (sampleSummary "deep learning." ["Jane Smith"] 2020).title) ++ ".")
          = false :=
  citation_strips_trailing_period (sampleSummary "deep learning." ["Jane Smith"] 2020)
    rfl (by decide)

/-! ### Retry semantics -/

theorem retryExec_attempts_le {α : Type} (attempt : Nat → Except String α) :
    ∀ (fuel i : Nat), (retryExec attempt i fuel).2 ≤ fuel + 1 := by
  intro fuel
  induction fuel with
  | zero => intro i; simp [retryExec]
  | succ n ih =>
    intro i
    cases hatt : attempt i with
    | ok a => simp [retryExec, hatt]
    | error e =>
      simp only [retryExec, hatt]
      exact Nat.succ_le_succ (ih (i + 1))

theorem retryExec_first_success {α : Type} (attempt : Nat → Except String α) :
    ∀ (k fuel i : Nat) (a : α), k ≤ fuel →
      (∀ j, j < k → ∃ e, attempt (i + j) = .error e) →
      attempt (i + k) = .ok a →
      retryExec attempt i fuel = (.ok a, k + 1) := by
  intro k
  induction k with
  | zero =>
    intro fuel i a _ _ hok
    simp only [Nat.add_zero] at hok
    cases fuel with
    | zero => simp [retryExec, hok]
    | succ n => simp [retryExec, hok]
  | succ k ih =>
    intro fuel i a hk hf hok
    obtain ⟨n, rfl⟩ : ∃ n, fuel = n + 1 := ⟨fuel - 1, by omega⟩
    obtain ⟨e, he⟩ := hf 0 (Nat.succ_pos k)
    simp only [Nat.add_zero] at he
    have hrec := ih n (i + 1) a (by omega)
      (fun j hj => by
        obtain ⟨e', he'⟩ := hf (j + 1) (by omega)
        exact ⟨e', by rw [← he']; congr 1; omega⟩)
      (by rw [← hok]; congr 1; omega)
    simp [retryExec, he, hrec]

theorem retryExec_all_fail {α : Type} (attempt : Nat → Except String α) :
    ∀ (fuel i : Nat),
      (∀ j, j < fuel → ∃ e, attempt (i + j) = .error e) →
      retryExec attempt i fuel = (attempt (i + fuel), fuel + 1) := by
  intro fuel
  induction fuel with
  | zero => intro i _; simp [retryExec]
  | succ n ih =>
    intro i hf
    obtain ⟨e, he⟩ := hf 0 (Nat.succ_pos n)
    simp only [Nat.add_zero] at he
    have hrec := ih (i + 1) (fun j hj => by
      obtain ⟨e', he'⟩ := hf (j + 1) (by omega)
      exact ⟨e', by rw [← he']; congr 1; omega⟩)
    simp only [retryExec, he, hrec]
    have : i + 1 + n = i + (n + 1) := by omega
    rw [this]

/-- Claim C6: the retried analysis and synthesis operations make at most
3 attempts per invocation; a success among the first 3 attempts is
returned immediately with no further attempts (in particular failures on
attempts 1 and 2 followed by success on attempt 3 succeed); and when the
first two attempts fail, the third attempt's outcome — in particular its
error — is what the invocation returns, after exactly 3 attempts. -/
theorem retry_semantics :
    (∀ attempt : Nat → Except String PaperSummary, (analyze_pdf attempt).2 ≤ 3) ∧
    (∀ attempt : Nat → Except String String, (synthesize_reviews attempt).2 ≤ 3) ∧
    (∀ (attempt : Nat → Except String PaperSummary) (k : Nat) (a : PaperSummary),
      k < 3 → (∀ j, j < k → ∃ e, attempt j = .error e) → attempt k = .ok a →
      analyze_pdf attempt = (.ok a, k + 1)) ∧
    (∀ (attempt : Nat → Except String String) (k : Nat) (r : String),
      k < 3 → (∀ j, j < k → ∃ e, attempt j = .error e) → attempt k = .ok r →
      synthesize_reviews attempt = (.ok r, k + 1)) ∧
    (∀ attempt : Nat → Except String PaperSummary,
      (∀ j, j < 2 → ∃ e, attempt j = .error e) →
      analyze_pdf attempt = (attempt 2, 3)) ∧
    (∀ attempt : Nat → Except String String,
      (∀ j, j < 2 → ∃ e, attempt j = .error e) →
      synthesize_reviews attempt = (attempt 2, 3)) := by
  refine ⟨fun attempt => retryExec_attempts_le attempt 2 0,
    fun attempt => retryExec_attempts_le attempt 2 0, ?_, ?_, ?_, ?_⟩
  · intro attempt k a hk hf hok
    exact retryExec_first_success attempt k 2 0 a (by omega)
      (fun j hj => by simpa [Nat.zero_add] using hf j hj)
      (by simpa [Nat.zero_add] using hok)
  · intro attempt k r hk hf hok
    exact retryExec_first_success attempt k 2 0 r (by omega)
      (fun j hj => by simpa [Nat.zero_add] using hf j hj)
      (by simpa [Nat.zero_add] using hok)
  · intro attempt hf
    have h := retryExec_all_fail attempt 2 0
      (fun j hj => by simpa [Nat.zero_add] using hf j hj)
    simpa [Nat.zero_add] using h
  · intro attempt hf
    have h := retryExec_all_fail attempt 2 0
      (fun j hj => by simpa [Nat.zero_add] using hf j hj)
    simpa [Nat.zero_add] using h

/-- Evaluation witness: `retry_semantics` applied to concrete attempt
outcomes that fail twice then succeed: the third attempt's result is
returned after exactly 3 attempts. -/
theorem retry_semantics_witness :
    analyze_pdf (fun n => if n < 2 then .error "rate limit"
        else .ok (sampleSummary "t" [] 2020))
      = (.ok (sampleSummary "t" [] 2020), 3) ∧
    synthesize_reviews (fun n => if n < 2 then .error "rate limit" else .ok "review")
      = (.ok "review", 3) :=
  ⟨retry_semantics.2.2.1 _ 2 (sampleSummary "t" [] 2020) (by omega)
      (fun j hj => ⟨"rate limit", by simp [hj]⟩) (by simp),
   retry_semantics.2.2.2.1 _ 2 "review" (by omega)
      (fun j hj => ⟨"rate limit", by simp [hj]⟩) (by simp)⟩

/-! ### Per-file failure isolation and the driver's terminal states -/

/-- Claim C7: a failing file is dropped at its own task boundary: every
other file's success is still collected (in order), the number of collected
summaries equals the number of successes, and in the concrete 3-good-plus-
1-corrupt scenario the written document's bibliography has exactly 3
entries. -/
theorem per_file_failure_isolated :
    (∀ (results : List (Except String PaperSummary)) (s : PaperSummary),
      Except.ok s ∈ results → s ∈ collectSummaries results) ∧
    (∀ results : List (Except String PaperSummary),
      (collectSummaries results).length
        = results.countP (fun r => r.toOption.isSome)) ∧
    (∀ (a b c : PaperSummary) (e : String),
      collectSummaries [.ok a, .ok b, .error e, .ok c] = [a, b, c]) ∧
    (∃ doc, mainRun ["a.pdf", "b.pdf", "corrupt.pdf", "c.pdf"] exOutcome exSynth
        = .completed doc ∧ bulletLineCount doc = 3) := by
  refine ⟨?_, ?_, ?_, ?_⟩
  · intro results s h
    exact List.mem_filterMap.mpr ⟨Except.ok s, h, rfl⟩
  · intro results
    induction results with
    | nil => rfl
    | cons r rs ih =>
      cases r with
      | ok a =>
        simp [collectSummaries, List.filterMap_cons, List.countP_cons,
          Except.toOption] at ih ⊢
        omega
      | error e =>
        simp [collectSummaries, List.filterMap_cons, List.countP_cons,
          Except.toOption] at ih ⊢
        omega
  · intro a b c e
    simp [collectSummaries, List.filterMap_cons, Except.toOption]
  · exact ⟨_, rfl, rfl⟩

/-- Evaluation witness: `per_file_failure_isolated` applied at a concrete
result list containing one failure. -/
theorem per_file_failure_isolated_witness :
    sampleSummary "alpha" ["Jane Smith"] 2020
      ∈ collectSummaries
          [.ok (sampleSummary "alpha" ["Jane Smith"] 2020), .error "boom"] :=
  per_file_failure_isolated.1 _ _ (List.mem_cons_self _ _)

/-- Claim C8: `main` writes an output file only when at least one summary
was produced: with no `.pdf` files the run ends at `failedNoInput`, and
with every file failing it ends at `failedNoOutput`; neither state writes
output. -/
theorem run_without_success_writes_nothing :
    (∀ (files : List String) (outcome : String → Except String PaperSummary)
        (synth : List PaperSummary → Except String String),
      (files.filter (fun f => strEndsWith f ".pdf")).isEmpty = true →
      mainRun files outcome synth = .failedNoInput ∧
      wroteOutput (mainRun files outcome synth) = false) ∧
    (∀ (files : List String) (outcome : String → Except String PaperSummary)
        (synth : List PaperSummary → Except String String),
      (files.filter (fun f => strEndsWith f ".pdf")).isEmpty = false →
      (∀ f ∈ files.filter (fun f => strEndsWith f ".pdf"), ∃ e, outcome f = .error e) →
      mainRun files outcome synth = .failedNoOutput ∧
      wroteOutput (mainRun files outcome synth) = false) := by
  constructor
  · intro files outcome synth h
    have hmain : mainRun files outcome synth = .failedNoInput := by
      simp [mainRun, h]
    exact ⟨hmain, by rw [hmain]; rfl⟩
  · intro files outcome synth h1 h2
    have hnil : collectSummaries
        ((files.filter (fun f => strEndsWith f ".pdf")).map outcome) = [] := by
      unfold collectSummaries
      rw [List.filterMap_eq_nil_iff]
      intro a ha
      obtain ⟨f, hf, rfl⟩ := List.mem_map.mp ha
      obtain ⟨e, he⟩ := h2 f hf
      rw [he]
      rfl
    have hmain : mainRun files outcome synth = .failedNoOutput := by
      simp [mainRun, h1, hnil]
    exact ⟨hmain, by rw [hmain]; rfl⟩

/-- Evaluation witness: `run_without_success_writes_nothing` applied at a
directory with no PDF files, and at one whose single PDF fails. -/
theorem run_without_success_witness :
    mainRun ["notes.txt"] exOutcome exSynth = .failedNoInput ∧
    mainRun ["x.pdf"] exFailOutcome exSynth = .failedNoOutput :=
  ⟨(run_without_success_writes_nothing.1 ["notes.txt"] exOutcome exSynth (by decide)).1,
   (run_without_success_writes_nothing.2 ["x.pdf"] exFailOutcome exSynth (by decide)
      (fun f _ => ⟨"AnalysisError", rfl⟩)).1⟩

end LitReview
